import Mathlib

/-!
Shallow embedding of `src/splose_export_to_flat_csv.py`.

The program converts a CSV export whose payload column holds a serialized
form submission (a list of sections containing typed questions) into a flat
CSV with one column per discovered question title.  We embed the pure core:
text normalization, payload parsing, answer extraction, title
de-duplication, and the two-pass flattening pipeline of `main`.

Modelling conventions:
* Python/JSON values are modelled by the inductive `JVal`; Python `None`
  and JSON `null` coincide after `json.loads`, so both are `JVal.null`.
  JSON numbers are modelled as integers (no claim concerns floats).
* The stdlib oracles `json.loads` and `html.unescape` are parameters
  (`loads : String → Option JVal`, `unescape : String → String`); a failed
  `json.loads` (a `JSONDecodeError`) is `none`.
* Whitespace is the ASCII fragment of Python `str.strip` / `\s`.
* Code paths on which CPython would raise (e.g. `.strip()` on a non-string
  truthy value, iterating a non-list `questions` value) are modelled
  benignly (stringification / empty list) and marked in comments; no claim
  exercises them, and a crashing run emits no output rows at all.
-/

/-- ASCII fragment of Python whitespace (`str.strip`, regex `\s`). -/
def pyIsSpace (c : Char) : Bool :=
  c = ' ' || c = '\t' || c = '\n' || c = '\r' || c = '\x0b' || c = '\x0c'

/-- Python `str.strip()` on a character list: drop whitespace at both ends. -/
def pyStripList (l : List Char) : List Char :=
  ((l.dropWhile pyIsSpace).reverse.dropWhile pyIsSpace).reverse

/-- Python `str.strip()` on strings. -/
def pyStrip (s : String) : String :=
  ⟨pyStripList s.data⟩

/-- Python `str.strip('"')`: drop double quotes at both ends. -/
def pyStripQuotes (s : String) : String :=
  ⟨((s.data.dropWhile (· = '"')).reverse.dropWhile (· = '"')).reverse⟩

/-- Replacement of every run of whitespace by a single space, as
`re.sub(r"\s+", " ", ·)` does; the flag records whether the previous
character belonged to a whitespace run already replaced. -/
def collapseWSAux : Bool → List Char → List Char
  | _, [] => []
  | inRun, c :: cs =>
    if pyIsSpace c then
      if inRun then collapseWSAux true cs else ' ' :: collapseWSAux true cs
    else c :: collapseWSAux false cs

/-- Replacement of every run of whitespace by a single space. -/
def collapseWS (l : List Char) : List Char := collapseWSAux false l

/-- Embedding of `norm_title`: `WS_REGEX.sub(" ", (s or "").strip())`. -/
def norm_title (s : String) : String :=
  ⟨collapseWS (pyStripList s.data)⟩

/-- Scan for the first `>` (the end of a `TAG_REGEX` match `<[^>]+>`),
returning the remainder after it. -/
def scanTagClose : List Char → Option (List Char)
  | [] => none
  | c :: cs => if c = '>' then some cs else scanTagClose cs

/-- After an opening `<`, a match of `<[^>]+>` needs at least one non-`>`
character before the closing `>`. -/
def tagRemainder : List Char → Option (List Char)
  | [] => none
  | c :: cs => if c = '>' then none else scanTagClose cs

/-- Embedding of `TAG_REGEX.sub(" ", ·)` with `TAG_REGEX = <[^>]+>`: each
leftmost match is replaced by one space.  The explicit fuel argument (the
input length suffices, since the remainder after a match is strictly
shorter) keeps the function structurally recursive. -/
def stripTagsGo : Nat → List Char → List Char
  | 0, l => l
  | _, [] => []
  | fuel + 1, c :: cs =>
    if c = '<' then
      match tagRemainder cs with
      | some rest => ' ' :: stripTagsGo fuel rest
      | none => '<' :: stripTagsGo fuel cs
    else c :: stripTagsGo fuel cs

/-- Tag stripping at adequate fuel. -/
def stripTagsL (l : List Char) : List Char := stripTagsGo l.length l

/-- Values produced by `json.loads`, with Python `None` identified with
JSON `null` and numbers restricted to integers. -/
inductive JVal where
  | null : JVal
  | bool : Bool → JVal
  | num : Int → JVal
  | str : String → JVal
  | arr : List JVal → JVal
  | obj : List (String × JVal) → JVal

/-- Python truthiness of a `JVal`. -/
def JVal.truthy : JVal → Bool
  | .null => false
  | .bool b => b
  | .num n => n != 0
  | .str s => s ≠ ""
  | .arr l => !l.isEmpty
  | .obj l => !l.isEmpty

/-- Python `dict.get(k)`: first binding of the key, `None` when the key is
missing.  A `.get` on a non-dict raises in CPython; no claim reaches that
path and it is modelled as missing. -/
def jGet : JVal → String → JVal
  | .obj l, k => (l.lookup k).getD .null
  | _, _ => .null

/-- Python `isinstance(v, int)`; note that `bool` is a subclass of `int`
in Python, so booleans count as integers. -/
def jIsInt : JVal → Bool
  | .num _ => true
  | .bool _ => true
  | _ => false

/-- Integer value of a `JVal` that satisfies `jIsInt` (Python `True` is 1). -/
def jIntVal : JVal → Int
  | .num n => n
  | .bool b => if b then 1 else 0
  | _ => 0

/-- Python `v is True`. -/
def isTrueLit : JVal → Bool
  | .bool true => true
  | _ => false

/-- Python `v is False`. -/
def isFalseLit : JVal → Bool
  | .bool false => true
  | _ => false

/-- Single quote character, used by Python `repr` of strings. -/
def sqChar : Char := Char.ofNat 39

/-- Opening curly brace character. -/
def curlyOpen : Char := Char.ofNat 123

/-- Closing curly brace character. -/
def curlyClose : Char := Char.ofNat 125

mutual
/-- Python `repr` of a parsed JSON value (string escaping omitted; only
`str()` of scalars is ever reached by the claims). -/
def pyRepr : JVal → String
  | .null => "None"
  | .bool b => if b then "True" else "False"
  | .num n => n.repr
  | .str s => sqChar.toString ++ s ++ sqChar.toString
  | .arr l => "[" ++ pyReprList l ++ "]"
  | .obj l => curlyOpen.toString ++ pyReprObj l ++ curlyClose.toString

/-- Comma-separated `repr`s of list elements. -/
def pyReprList : List JVal → String
  | [] => ""
  | [x] => pyRepr x
  | x :: y :: xs => pyRepr x ++ ", " ++ pyReprList (y :: xs)

/-- Comma-separated `repr`s of dict entries (keys rendered like `repr` of
a string). -/
def pyReprObj : List (String × JVal) → String
  | [] => ""
  | [kv] => sqChar.toString ++ kv.1 ++ sqChar.toString ++ ": " ++ pyRepr kv.2
  | kv :: kv2 :: xs =>
    sqChar.toString ++ kv.1 ++ sqChar.toString ++ ": " ++ pyRepr kv.2 ++ ", " ++ pyReprObj (kv2 :: xs)
end

/-- Python `str(v)`: like `repr` but strings unquoted. -/
def pyStr : JVal → String
  | .str s => s
  | v => pyRepr v

/-- Python `(v or "")` followed by stringification: the argument that the
source feeds to `norm_title` / `.strip()`.  A truthy non-string would raise
`AttributeError` in CPython at the subsequent `.strip()`; it is stringified
here (unreached by the claims). -/
def pyOrEmptyStr (v : JVal) : String :=
  if v.truthy then pyStr v else ""

/-- Shorthand for `norm_title(q.get(k) or "")` as used throughout. -/
def normGet (q : JVal) (k : String) : String :=
  norm_title (pyOrEmptyStr (jGet q k))

/-- Embedding of `clean_text`: `None` becomes `""`; any other value is
stringified, HTML-unescaped (oracle `unescape`), tag-stripped, whitespace
collapsed, and trimmed. -/
def clean_text (unescape : String → String) : JVal → String
  | .null => ""
  | v => ⟨pyStripList (collapseWS (stripTagsL (unescape (pyStr v)).data))⟩

/-- Shorthand for `clean_text(q.get(k) or "")`. -/
def cleanGet (unescape : String → String) (q : JVal) (k : String) : String :=
  clean_text unescape (.str (pyOrEmptyStr (jGet q k)))

/-- Fixed preference order of record keys that may hold the section list. -/
def sectionKeys : List String := ["sections", "data", "form", "payload", "answers"]

/-- First key of `ks` whose value in the parsed record is a list, as the
`for k in (...)` loop over `obj.get(k)` does. -/
def firstListKey (o : JVal) : List String → Option (List JVal)
  | [] => none
  | k :: ks =>
    match jGet o k with
    | .arr l => some l
    | _ => firstListKey o ks

/-- Shape dispatch after a successful structured parse: a list is returned
directly; a record is searched for the first preferred key holding a list;
anything else is absent. -/
def sectionsOfParsed : JVal → Option (List JVal)
  | .arr l => some l
  | .obj l => firstListKey (.obj l) sectionKeys
  | _ => none

/-- Embedding of `parse_json_sections`.  The argument is `none` for any
non-string cell (including a missing cell / Python `None`); `loads` is the
`json.loads` oracle, returning `none` where CPython raises
`JSONDecodeError`. -/
def parse_json_sections (loads : String → Option JVal) : Option String → Option (List JVal)
  | none => none
  | some cell =>
    let s := pyStrip cell
    if s = "" then none
    else if ¬(s.data.head? = some '[' ∨ s.data.head? = some curlyOpen) then none
    else
      match loads s with
      | some obj => sectionsOfParsed obj
      | none =>
        match loads (pyStripQuotes s) with
        | some obj => sectionsOfParsed obj
        | none => none

/-- Join with `"; "`, as `"; ".join(...)`. -/
def joinSemi (l : List String) : String :=
  String.intercalate "; " l

/-- Embedding of `extract_checkboxes`: collect options whose `checked` is
exactly `True`; for each, `(label or value or "").strip()`, or `"Other"`
for an unnamed custom choice; clean and join with `"; "`; `None` if none
picked.  A truthy non-string label/value would raise at `.strip()` in
CPython (unreached by the claims); it is stringified here. -/
def extract_checkboxes (unescape : String → String) (q : JVal) : Option String :=
  match jGet q "checkboxes" with
  | .arr opts =>
    let picked := opts.foldl (fun acc o =>
      match o with
      | .obj _ =>
        if isTrueLit (jGet o "checked") then
          let raw := if (jGet o "label").truthy then jGet o "label"
                     else if (jGet o "value").truthy then jGet o "value"
                     else .str ""
          let val := pyStrip (pyStr raw)
          let val := if val = "" && isTrueLit (jGet o "customChoice") then "Other" else val
          if val ≠ "" then acc ++ [clean_text unescape (.str val)] else acc
        else acc
      | _ => acc) []
    if picked.isEmpty then none else some (joinSemi picked)
  | _ => none

/-- Python `f"{x:02d}"`: pad a single decimal digit with a leading zero. -/
def pad2 (x : Int) : String :=
  if 0 ≤ x ∧ x < 10 then "0" ++ x.repr else x.repr

/-- Date-of-birth rendering `f"{d:02d}/{(m+1):02d}/{y}"` (stored month is
0-based). -/
def fmtDOB (y m d : Int) : String :=
  pad2 d ++ "/" ++ pad2 (m + 1) ++ "/" ++ y.repr

/-- Embedding of `extract_answer`: type-directed extraction of zero-or-one
display string from one question record. -/
def extract_answer (unescape : String → String) (q : JVal)
    (other_interested_keys : List String) : Option String :=
  let qtype := normGet q "type"
  if qtype = "Statement" then none
  else if qtype = "Short answer" ∨ qtype = "Paragraph" ∨ qtype = "Yes/No" then
    let txt := match jGet q "answerText" with
      | .str s => clean_text unescape (.str s)
      | _ => ""
    if txt ≠ "" then some txt else none
  else if qtype = "Patient name" then
    let first := cleanGet unescape q "firstName"
    let last := cleanGet unescape q "lastName"
    let full := String.intercalate " " ([first, last].filter (· ≠ ""))
    if full ≠ "" then some full else none
  else if qtype = "Date of birth" then
    let y := jGet q "birthYear"
    let m := jGet q "birthMonth"
    let d := jGet q "birthDay"
    if jIsInt y && jIsInt m && jIsInt d then
      some (fmtDOB (jIntVal y) (jIntVal m) (jIntVal d))
    else
      let txt := cleanGet unescape q "answerText"
      if txt ≠ "" then some txt else none
  else if qtype = "Checkboxes" ∨ qtype = "Multiple choice" then
    let fallback :=
      let txt := cleanGet unescape q "answerText"
      if txt ≠ "" then some txt else none
    match extract_checkboxes unescape q with
    | some picked => if picked ≠ "" then some picked else fallback
    | none => fallback
  else if qtype = "Signature" then
    match jGet q "signature" with
    | .str s => if pyStrip s ≠ "" then some "signed" else some "not signed"
    | _ => some "not signed"
  else
    let txts := ("answerText" :: other_interested_keys).foldl (fun acc k =>
      if cleanGet unescape q k ≠ "" then acc ++ [cleanGet unescape q k] else acc) []
    if txts.isEmpty then none else some (joinSemi txts)

/-- Numeric suffix candidate `f"{candidate} #{k}"`. -/
def sfx (candidate : String) (k : Nat) : String :=
  candidate ++ " #" ++ Nat.repr k

/-- The `while final in seen` suffix search of `unique_title`, starting at
`k`.  The Python loop is unbounded; `seen.length + 1` units of fuel provably
suffice (`searchFrom_spec` below), so the zero-fuel fallback is
unreachable at the call site. -/
def searchFrom (candidate : String) (seen : List String) : Nat → Nat → String
  | 0, k => sfx candidate k
  | fuel + 1, k =>
    if sfx candidate k ∈ seen then searchFrom candidate seen fuel (k + 1)
    else sfx candidate k

/-- Candidate name for an untitled question:
`"(untitled:<id>)"` when `(q.get("id") or "").strip()` is non-empty, else
`"(untitled)"`. -/
def untitledCandidate (q : JVal) : String :=
  let qid := pyStrip (pyOrEmptyStr (jGet q "id"))
  if qid ≠ "" then "(untitled:" ++ qid ++ ")" else "(untitled)"

/-- Embedding of `unique_title`.  The Python function also mutates `seen`;
here the callers extend their `seen` list with the returned name, which
subsumes both `seen.add` calls of the source. -/
def unique_title (base : String) (q : JVal) (seen : List String) : String :=
  if base ≠ "" ∧ base ∉ seen then base
  else
    let candidate := if base = "" then untitledCandidate q else base
    if candidate ∈ seen then searchFrom candidate seen (seen.length + 1) 2
    else candidate

/-- Python `sec.get("questions") or []`.  Iterating a truthy non-list (a
dict or a string) would make the loop body raise in CPython; modelled as
the empty list (unreached by the claims). -/
def questionsOf (sec : JVal) : List JVal :=
  match jGet sec "questions" with
  | .arr l => l
  | _ => []

/-- One step of `collect_question_titles`: state is
(accumulated titles, per-row seen set). -/
def collectStep (st : List String × List String) (q : JVal) :
    List String × List String :=
  if normGet q "type" = "Statement" then st
  else
    let final := unique_title (normGet q "title") q st.2
    (st.1 ++ [final], final :: st.2)

/-- Embedding of `collect_question_titles`: the ordered list of final
titles of one row's non-Statement questions, deduplicated against a fresh
per-row seen set. -/
def collect_question_titles (sections : List JVal) : List String :=
  (sections.foldl (fun st sec => (questionsOf sec).foldl collectStep st) ([], [])).1

/-- Keys of a per-row answer map. -/
def qkeys (m : List (String × List String)) : List String :=
  m.map Prod.fst

/-- Python `out.setdefault(final, [])`. -/
def qSetdefault (m : List (String × List String)) (k : String) :
    List (String × List String) :=
  if k ∈ qkeys m then m else m ++ [(k, [])]

/-- Python `out[final].append(ans)`: extend the (unique) binding of `k`. -/
def qAppend (m : List (String × List String)) (k : String) (a : String) :
    List (String × List String) :=
  m.map (fun kv => if kv.1 = k then (kv.1, kv.2 ++ [a]) else kv)

/-- One step of `flatten_questions`: state is (answer map, per-row seen
set).  A question whose `shown` is exactly `False` registers its title but
contributes no map entry. -/
def flattenStep (unescape : String → String) (other_interested_keys : List String)
    (st : List (String × List String) × List String) (q : JVal) :
    List (String × List String) × List String :=
  if normGet q "type" = "Statement" then st
  else
    let final := unique_title (normGet q "title") q st.2
    let seen := final :: st.2
    if isFalseLit (jGet q "shown") then (st.1, seen)
    else
      let ans := extract_answer unescape q other_interested_keys
      let m := qSetdefault st.1 final
      let m := match ans with
        | some a => if pyStrip a ≠ "" then qAppend m final a else m
        | none => m
      (m, seen)

/-- Embedding of `flatten_questions`: per-row map from final title to the
ordered list of non-empty answers. -/
def flatten_questions (unescape : String → String) (sections : List JVal)
    (other_interested_keys : List String) : List (String × List String) :=
  (sections.foldl (fun st sec =>
    (questionsOf sec).foldl (flattenStep unescape other_interested_keys) st)
    ([], [])).1

/-- One CSV record: ordered mapping from source column name to raw text. -/
def Row : Type := List (String × String)

/-- Cell of a row, `none` when the column is missing (Python `r.get(c)`
giving `None`). -/
def rowCell (r : Row) (c : String) : Option String :=
  (List.lookup c r : Option String)

/-- Python `r.get(c, "")`. -/
def rowGet (r : Row) (c : String) : String :=
  (rowCell r c).getD ""

/-- Embedding of `should_keep_row`: `form_titles is None` means no filter;
otherwise a falsy `title_col` (absent or empty) drops the row, else the
row's normalized title must be in the allow-list. -/
def should_keep_row (r : Row) (title_col : Option String)
    (form_titles : Option (List String)) : Bool :=
  match form_titles with
  | none => true
  | some fts =>
    match title_col with
    | none => false
    | some tc =>
      if tc = "" then false
      else norm_title (rowGet r tc) ∈ fts

/-- Normalization of the configured `form_titles` performed by `main`: a
JSON list is mapped through `norm_title`, and anything else (including an
absent option) becomes the empty list.  Note that `main` always passes the
resulting list (never `None`) to `should_keep_row`. -/
def main_form_titles : Option JVal → List String
  | some (.arr l) => l.map (fun t => norm_title (pyOrEmptyStr t))
  | _ => []

/-- Insertion-ordered union used by pass 1: append each title not yet
present (the `seen` set of `main` coincides with membership in the
accumulated list). -/
def unionMerge (acc : List String) (ts : List String) : List String :=
  ts.foldl (fun a t => if t ∈ a then a else a ++ [t]) acc

/-- Pass 1 of `main` from an explicit starting accumulator: for each kept
row whose payload parses to a non-empty section list, merge that row's
titles into the union. -/
def pass1Acc (loads : String → Option JVal) (title_col : Option String)
    (form_titles : Option (List String)) (json_col : String)
    (acc : List String) (rows : List Row) : List String :=
  rows.foldl (fun acc r =>
    if should_keep_row r title_col form_titles then
      match parse_json_sections loads (rowCell r json_col) with
      | none => acc
      | some [] => acc
      | some secs => unionMerge acc (collect_question_titles secs)
    else acc) acc

/-- Pass 1 of `main`: the Union Title List. -/
def pass1 (loads : String → Option JVal) (title_col : Option String)
    (form_titles : Option (List String)) (json_col : String)
    (rows : List Row) : List String :=
  pass1Acc loads title_col form_titles json_col [] rows

/-- Output cell for a question column, given the row's answer map: absent
title gives the `(N/A)` sentinel; an empty answer list gives `not signed`
for the literal `Signature` column and `(NoResponse)` otherwise; otherwise
the answers joined with `"; "`. -/
def cellFor (qmap : List (String × List String)) (t : String) : String :=
  match (List.lookup t qmap : Option (List String)) with
  | none => "(N/A)"
  | some answers =>
    if answers.isEmpty then (if t = "Signature" then "not signed" else "(NoResponse)")
    else joinSemi answers

/-- Emitted output record of pass 2 for one kept row, as the `out_row`
dict: most-recent binding first, so `dget` below sees the last
assignment, exactly as Python dict assignment overwrites. -/
def emit_row (loads : String → Option JVal) (unescape : String → String)
    (other_interested_keys : List String) (meta_cols union_titles : List String)
    (json_col : String) (r : Row) : List (String × String) :=
  let d0 := meta_cols.foldl (fun d c => (c, rowGet r c) :: d) []
  match parse_json_sections loads (rowCell r json_col) with
  | none => union_titles.foldl (fun d t => (t, "(N/A)") :: d) d0
  | some [] => union_titles.foldl (fun d t => (t, "(N/A)") :: d) d0
  | some secs =>
    let qmap := flatten_questions unescape secs other_interested_keys
    union_titles.foldl (fun d t => (t, cellFor qmap t) :: d) d0

/-- Lookup in an emitted record (most-recent binding first). -/
def dget (d : List (String × String)) (k : String) : Option String :=
  (List.lookup k d : Option String)

/-- Pass 2 of `main`: the emitted data records, one per kept row. -/
def pass2 (loads : String → Option JVal) (unescape : String → String)
    (other_interested_keys : List String) (title_col : Option String)
    (form_titles : Option (List String)) (json_col : String)
    (meta_cols union_titles : List String) (rows : List Row) :
    List (List (String × String)) :=
  rows.foldl (fun out r =>
    if should_keep_row r title_col form_titles then
      out ++ [emit_row loads unescape other_interested_keys meta_cols union_titles json_col r]
    else out) []

/-- Final titles of one row's non-Statement questions paired with whether
the question contributes answers (`shown` not exactly `False`), threading
the same seen set as `flatten_questions`. -/
def titlesShown (seen : List String) : List JVal → List (String × Bool)
  | [] => []
  | q :: qs =>
    if normGet q "type" = "Statement" then titlesShown seen qs
    else
      let f := unique_title (normGet q "title") q seen
      (f, !isFalseLit (jGet q "shown")) :: titlesShown (f :: seen) qs

/-- Replacement of the first binding of key `k` (appending when absent),
i.e. Python dict assignment `d[k] = v`. -/
def setKey : List (String × JVal) → String → JVal → List (String × JVal)
  | [], k, v => [(k, v)]
  | kv :: rest, k, v =>
    if kv.1 = k then (kv.1, v) :: rest else kv :: setKey rest k v

/-- Set the `shown` field of a question record to `v` (statement vehicle
for C7: the value of `shown` is irrelevant to title discovery). -/
def qSetShown (v : JVal) : JVal → JVal
  | .obj l => .obj (setKey l "shown" v)
  | x => x

/-- Set the `shown` field of every question of a section to `v`. -/
def secSetShown (v : JVal) (sec : JVal) : JVal :=
  match sec with
  | .obj l => .obj (l.map (fun kv =>
      if kv.1 = "questions" then
        (kv.1, match kv.2 with
               | .arr qs => .arr (qs.map (qSetShown v))
               | x => x)
      else kv))
  | x => x

/-- Characterization of the collision resolution of `unique_title`: the
result is the candidate itself when fresh, else the candidate suffixed
with `" #k"` for the lowest unused integer `k ≥ 2`. -/
def ResolvesLowestSuffix (candidate : String) (seen : List String) (r : String) : Prop :=
  (candidate ∉ seen ∧ r = candidate) ∨
  (candidate ∈ seen ∧ ∃ k, 2 ≤ k ∧ r = sfx candidate k ∧ sfx candidate k ∉ seen ∧
    ∀ j, 2 ≤ j → j < k → sfx candidate j ∈ seen)

/-- Decimal value of a digit character. -/
def decChar (c : Char) : Nat := c.toNat - 48

/-- Numeric value of a most-significant-first digit string, folded onto an
accumulator. -/
def decFold (a : Nat) (l : List Char) : Nat :=
  l.foldl (fun a c => 10 * a + decChar c) a

theorem decChar_digitChar {d : Nat} (h : d < 10) :
    decChar (Nat.digitChar d) = d := by
  interval_cases d <;> rfl

theorem decFold_toDigitsCore :
    ∀ (fuel n : Nat) (ds : List Char), n < fuel →
      decFold 0 (Nat.toDigitsCore 10 fuel n ds) = decFold n ds := by
  intro fuel
  induction fuel with
  | zero => intro n ds h; omega
  | succ fuel ih =>
    intro n ds _
    by_cases hz : n / 10 = 0
    · have hn : n < 10 := by omega
      have : Nat.toDigitsCore 10 (fuel + 1) n ds = Nat.digitChar (n % 10) :: ds := by
        simp [Nat.toDigitsCore, hz]
      rw [this]
      show decFold (10 * 0 + decChar (Nat.digitChar (n % 10))) ds = decFold n ds
      rw [decChar_digitChar (Nat.mod_lt n (by norm_num))]
      congr 1
      omega
    · have hge : 10 ≤ n := by
        by_contra hlt
        exact hz (Nat.div_eq_of_lt (by omega))
      have hrec : Nat.toDigitsCore 10 (fuel + 1) n ds
          = Nat.toDigitsCore 10 fuel (n / 10) (Nat.digitChar (n % 10) :: ds) := by
        simp [Nat.toDigitsCore, hz]
      rw [hrec, ih (n / 10) _ (by omega)]
      show decFold (10 * (n / 10) + decChar (Nat.digitChar (n % 10))) ds = decFold n ds
      rw [decChar_digitChar (Nat.mod_lt n (by norm_num))]
      congr 1
      omega

theorem decFold_repr (n : Nat) : decFold 0 (Nat.repr n).data = n := by
  have h : (Nat.repr n).data = Nat.toDigitsCore 10 (n + 1) n [] := rfl
  rw [h, decFold_toDigitsCore (n + 1) n [] (Nat.lt_succ_self n)]
  rfl

theorem natRepr_injective {a b : Nat} (h : Nat.repr a = Nat.repr b) : a = b := by
  have := congrArg (fun s => decFold 0 s.data) h
  simpa [decFold_repr] using this

theorem sfx_inj {c : String} {a b : Nat} (h : sfx c a = sfx c b) : a = b := by
  apply natRepr_injective
  have hd := congrArg String.data h
  simp only [sfx, String.data_append] at hd
  have h2 := List.append_cancel_left hd
  calc Nat.repr a = ⟨(Nat.repr a).data⟩ := rfl
    _ = ⟨(Nat.repr b).data⟩ := congrArg String.mk h2
    _ = Nat.repr b := rfl

theorem exists_sfx_fresh (c : String) (seen : List String) :
    ∃ j, 2 ≤ j ∧ j < 2 + (seen.length + 1) ∧ sfx c j ∉ seen := by
  by_contra hc
  push_neg at hc
  have hinj : Set.InjOn (sfx c) (Finset.Ico 2 (2 + (seen.length + 1))) :=
    fun a _ b _ h => sfx_inj h
  have hsub : (Finset.Ico 2 (2 + (seen.length + 1))).image (sfx c) ⊆ seen.toFinset := by
    intro s hs
    rw [Finset.mem_image] at hs
    obtain ⟨j, hj, rfl⟩ := hs
    rw [Finset.mem_Ico] at hj
    rw [List.mem_toFinset]
    exact hc j hj.1 hj.2
  have hcard := Finset.card_le_card hsub
  rw [Finset.card_image_of_injOn hinj, Nat.card_Ico] at hcard
  have := seen.toFinset_card_le
  omega

theorem searchFrom_spec (c : String) (seen : List String) :
    ∀ (fuel k : Nat), (∃ j, k ≤ j ∧ j < k + fuel ∧ sfx c j ∉ seen) →
      ∃ m, k ≤ m ∧ searchFrom c seen fuel k = sfx c m ∧ sfx c m ∉ seen ∧
        ∀ j, k ≤ j → j < m → sfx c j ∈ seen := by
  intro fuel
  induction fuel with
  | zero =>
    intro k h
    obtain ⟨j, h1, h2, _⟩ := h
    omega
  | succ fuel ih =>
    intro k h
    obtain ⟨j, hkj, hjlt, hjnot⟩ := h
    by_cases hmem : sfx c k ∈ seen
    · have hne : j ≠ k := fun he => hjnot (he ▸ hmem)
      obtain ⟨m, hm1, hm2, hm3, hm4⟩ := ih (k + 1) ⟨j, by omega, by omega, hjnot⟩
      refine ⟨m, by omega, ?_, hm3, ?_⟩
      · rw [searchFrom, if_pos hmem]
        exact hm2
      · intro i hi1 hi2
        rcases Nat.eq_or_lt_of_le hi1 with heq | hlt
        · exact heq ▸ hmem
        · exact hm4 i hlt hi2
    · exact ⟨k, le_refl k, by rw [searchFrom, if_neg hmem], hmem,
        fun i h1 h2 => absurd (lt_of_le_of_lt h1 h2) (lt_irrefl _)⟩

theorem resolves_core (c : String) (seen : List String) :
    ResolvesLowestSuffix c seen
      (if c ∈ seen then searchFrom c seen (seen.length + 1) 2 else c) := by
  by_cases hm : c ∈ seen
  · right
    refine ⟨hm, ?_⟩
    obtain ⟨j, hj2, hjlt, hjnot⟩ := exists_sfx_fresh c seen
    obtain ⟨m, hm2, heq, hnot, hall⟩ :=
      searchFrom_spec c seen (seen.length + 1) 2 ⟨j, hj2, by omega, hjnot⟩
    exact ⟨m, hm2, by rw [if_pos hm, heq], hnot, hall⟩
  · exact Or.inl ⟨hm, by rw [if_neg hm]⟩

theorem unique_title_fresh {base : String} (q : JVal) (seen : List String)
    (h1 : base ≠ "") (h2 : base ∉ seen) : unique_title base q seen = base := by
  rw [unique_title, if_pos ⟨h1, h2⟩]

theorem unique_title_empty (q : JVal) (seen : List String) :
    unique_title "" q seen =
      (if untitledCandidate q ∈ seen then
        searchFrom (untitledCandidate q) seen (seen.length + 1) 2
      else untitledCandidate q) := by
  rw [unique_title, if_neg (by simp)]
  simp

theorem unique_title_collide {base : String} (q : JVal) (seen : List String)
    (h1 : base ≠ "") (h2 : base ∈ seen) :
    unique_title base q seen =
      (if base ∈ seen then searchFrom base seen (seen.length + 1) 2 else base) := by
  rw [unique_title, if_neg (by simp [h2])]
  simp [h1]

theorem unique_title_not_mem (base : String) (q : JVal) (seen : List String) :
    unique_title base q seen ∉ seen := by
  by_cases h1 : base ≠ "" ∧ base ∉ seen
  · rw [unique_title, if_pos h1]
    exact h1.2
  · rw [unique_title, if_neg h1]
    rcases resolves_core (if base = "" then untitledCandidate q else base) seen with
      ⟨hnm, heq⟩ | ⟨_, k, _, heq, hnm, _⟩ <;> rw [heq] <;> exact hnm

theorem foldl_sections {β : Type} (f : β → JVal → β) (secs : List JVal) (st : β) :
    secs.foldl (fun st sec => (questionsOf sec).foldl f st) st
      = (secs.flatMap questionsOf).foldl f st := by
  induction secs generalizing st with
  | nil => rfl
  | cons sec secs ih => simp [List.flatMap_cons, List.foldl_append, ih]

theorem collect_fold_inv (qs : List JVal) :
    ∀ st : List String × List String, (∀ t ∈ st.1, t ∈ st.2) → st.1.Nodup →
      (∀ t ∈ (qs.foldl collectStep st).1, t ∈ (qs.foldl collectStep st).2) ∧
        (qs.foldl collectStep st).1.Nodup := by
  induction qs with
  | nil => intro st h1 h2; exact ⟨h1, h2⟩
  | cons q qs ih =>
    intro st h1 h2
    rw [List.foldl_cons]
    apply ih
    · intro t ht
      by_cases hst : normGet q "type" = "Statement"
      · simp only [collectStep, if_pos hst] at ht ⊢
        exact h1 t ht
      · simp only [collectStep, if_neg hst, List.mem_append,
          List.mem_singleton] at ht ⊢
        rcases ht with ht | ht
        · exact List.mem_cons_of_mem _ (h1 t ht)
        · exact ht ▸ List.mem_cons_self _ _
    · by_cases hst : normGet q "type" = "Statement"
      · simpa only [collectStep, if_pos hst] using h2
      · simp only [collectStep, if_neg hst]
        rw [List.nodup_append]
        refine ⟨h2, List.nodup_singleton _, ?_⟩
        intro t ht ht2
        rw [List.mem_singleton] at ht2
        exact unique_title_not_mem _ q st.2 (ht2 ▸ h1 t ht)

theorem collect_nodup (secs : List JVal) : (collect_question_titles secs).Nodup := by
  rw [collect_question_titles, foldl_sections]
  exact (collect_fold_inv (secs.flatMap questionsOf) ([], [])
    (by intro t h; cases h) List.nodup_nil).2

theorem lookup_setKey_ne (l : List (String × JVal)) (k k2 : String) (v : JVal)
    (h : k2 ≠ k) : List.lookup k2 (setKey l k v) = List.lookup k2 l := by
  induction l with
  | nil =>
    have : (k2 == k) = false := by simp [h]
    simp [setKey, List.lookup_cons, this]
  | cons kv rest ih =>
    rcases kv with ⟨k0, w0⟩
    by_cases hk : k0 = k
    · have : (k2 == k0) = false := by simp [hk ▸ h]
      rw [setKey, if_pos hk]
      simp [List.lookup_cons, this]
    · rw [setKey, if_neg hk]
      by_cases h2 : k2 = k0
      · simp [List.lookup_cons, h2]
      · have : (k2 == k0) = false := by simp [h2]
        simp only [List.lookup_cons, this]
        exact ih

theorem jGet_qSetShown_ne (v : JVal) (q : JVal) (k : String) (h : k ≠ "shown") :
    jGet (qSetShown v q) k = jGet q k := by
  cases q <;> try rfl
  case obj l =>
    rw [qSetShown, jGet, jGet, lookup_setKey_ne l _ k v h]

theorem normGet_qSetShown (v : JVal) (q : JVal) (k : String) (h : k ≠ "shown") :
    normGet (qSetShown v q) k = normGet q k := by
  rw [normGet, normGet, jGet_qSetShown_ne v q k h]

theorem unique_title_qSetShown (v : JVal) (base : String) (q : JVal)
    (seen : List String) :
    unique_title base (qSetShown v q) seen = unique_title base q seen := by
  rw [unique_title, unique_title, untitledCandidate, untitledCandidate,
    jGet_qSetShown_ne v q "id" (by decide)]

theorem lookup_secSetShown (v : JVal) (l : List (String × JVal)) (k : String) :
    List.lookup k (l.map (fun kv =>
      if kv.1 = "questions" then
        (kv.1, match kv.2 with
               | .arr qs => JVal.arr (qs.map (qSetShown v))
               | x => x)
      else kv))
      = (List.lookup k l).map (fun w =>
          if k = "questions" then
            match w with
            | .arr qs => JVal.arr (qs.map (qSetShown v))
            | x => x
          else w) := by
  induction l with
  | nil => rfl
  | cons kv rest ih =>
    rcases kv with ⟨k0, w0⟩
    by_cases hk : k = k0
    · subst hk
      by_cases hq : k = "questions"
      · simp [List.lookup_cons, hq]
      · simp [List.lookup_cons, hq]
    · have hbeq : (k == k0) = false := by simp [hk]
      by_cases hq : k0 = "questions"
      · simp only [List.map_cons, if_pos hq, List.lookup_cons, hbeq]
        exact ih
      · simp only [List.map_cons, if_neg hq, List.lookup_cons, hbeq]
        exact ih

theorem questionsOf_secSetShown (v : JVal) (sec : JVal) :
    questionsOf (secSetShown v sec) = (questionsOf sec).map (qSetShown v) := by
  cases sec <;> try rfl
  case obj l =>
    rw [secSetShown, questionsOf, questionsOf, jGet, jGet, lookup_secSetShown]
    cases hl : List.lookup "questions" l with
    | none => rfl
    | some w => cases w <;> rfl

theorem collectStep_qSetShown (v : JVal) (st : List String × List String)
    (q : JVal) : collectStep st (qSetShown v q) = collectStep st q := by
  rw [collectStep, collectStep, normGet_qSetShown v q "type" (by decide),
    normGet_qSetShown v q "title" (by decide), unique_title_qSetShown]

theorem collect_secSetShown (v : JVal) (secs : List JVal) :
    collect_question_titles (secs.map (secSetShown v))
      = collect_question_titles secs := by
  rw [collect_question_titles, collect_question_titles, foldl_sections,
    foldl_sections]
  have hflat : (secs.map (secSetShown v)).flatMap questionsOf
      = (secs.flatMap questionsOf).map (qSetShown v) := by
    induction secs with
    | nil => rfl
    | cons sec secs ih =>
      simp [List.flatMap_cons, questionsOf_secSetShown, ih]
  have hstep : (fun (st : List String × List String) q =>
      collectStep st (qSetShown v q)) = collectStep := by
    funext st q
    exact collectStep_qSetShown v st q
  rw [hflat, List.foldl_map, hstep]

theorem qkeys_qAppend (m : List (String × List String)) (k : String) (a : String) :
    qkeys (qAppend m k a) = qkeys m := by
  induction m with
  | nil => rfl
  | cons kv rest ih =>
    by_cases h : kv.1 = k <;> simp [qAppend, qkeys, h] <;>
      simpa [qAppend, qkeys] using ih

theorem mem_qkeys_qSetdefault (m : List (String × List String)) (k t : String) :
    t ∈ qkeys (qSetdefault m k) ↔ t ∈ qkeys m ∨ t = k := by
  by_cases h : k ∈ qkeys m
  · rw [qSetdefault, if_pos h]
    constructor
    · exact Or.inl
    · rintro (ht | rfl)
      · exact ht
      · exact h
  · rw [qSetdefault, if_neg h]
    simp [qkeys]

theorem qkeys_flattenStep_shown (u : String → String) (o : List String)
    (st : List (String × List String) × List String) (q : JVal)
    (hst : ¬ normGet q "type" = "Statement")
    (hsh : ¬ isFalseLit (jGet q "shown") = true) (t : String) :
    (t ∈ qkeys (flattenStep u o st q).1 ↔
      t ∈ qkeys st.1 ∨ t = unique_title (normGet q "title") q st.2) := by
  simp only [flattenStep, if_neg hst, if_neg hsh]
  cases extract_answer u q o with
  | none => exact mem_qkeys_qSetdefault st.1 _ t
  | some a =>
    by_cases hp : pyStrip a ≠ ""
    · simp only [if_pos hp]
      rw [qkeys_qAppend]
      exact mem_qkeys_qSetdefault st.1 _ t
    · simp only [if_neg hp]
      exact mem_qkeys_qSetdefault st.1 _ t

theorem flattenStep_snd (u : String → String) (o : List String)
    (st : List (String × List String) × List String) (q : JVal)
    (hst : ¬ normGet q "type" = "Statement") :
    (flattenStep u o st q).2
      = unique_title (normGet q "title") q st.2 :: st.2 := by
  simp only [flattenStep, if_neg hst]
  split
  · rfl
  · rfl

theorem flattenStep_fst_hidden (u : String → String) (o : List String)
    (st : List (String × List String) × List String) (q : JVal)
    (hst : ¬ normGet q "type" = "Statement")
    (hsh : isFalseLit (jGet q "shown") = true) :
    (flattenStep u o st q).1 = st.1 := by
  simp only [flattenStep, if_neg hst, if_pos hsh]

theorem flatten_fold_keys (u : String → String) (o : List String) :
    ∀ (qs : List JVal) (st : List (String × List String) × List String)
      (t : String),
      (t ∈ qkeys (qs.foldl (flattenStep u o) st).1 ↔
        t ∈ qkeys st.1 ∨ (t, true) ∈ titlesShown st.2 qs) := by
  intro qs
  induction qs with
  | nil => simp [titlesShown]
  | cons q qs ih =>
    intro st t
    rw [List.foldl_cons, ih]
    by_cases hst : normGet q "type" = "Statement"
    · simp [flattenStep, titlesShown, if_pos hst]
    · rw [flattenStep_snd u o st q hst]
      by_cases hsh : isFalseLit (jGet q "shown") = true
      · rw [flattenStep_fst_hidden u o st q hst hsh]
        simp only [titlesShown, if_neg hst, hsh, Bool.not_true, List.mem_cons,
          Prod.mk.injEq]
        constructor
        · rintro (h | h)
          · exact Or.inl h
          · exact Or.inr (Or.inr h)
        · rintro (h | ⟨⟨_, hff⟩ | h⟩)
          · exact Or.inl h
          · cases hff
          · exact Or.inr h
      · have hsh0 : isFalseLit (jGet q "shown") = false := by
          rwa [Bool.not_eq_true] at hsh
        rw [qkeys_flattenStep_shown u o st q hst hsh t]
        simp only [titlesShown, if_neg hst, hsh0, Bool.not_false, List.mem_cons,
          Prod.mk.injEq]
        constructor
        · rintro ((h | h) | h)
          · exact Or.inl h
          · exact Or.inr (Or.inl ⟨h, trivial⟩)
          · exact Or.inr (Or.inr h)
        · rintro (h | ⟨⟨h, _⟩ | h⟩)
          · exact Or.inl (Or.inl h)
          · exact Or.inl (Or.inr h)
          · exact Or.inr h

theorem lookup_eq_none_of_not_key (m : List (String × List String)) (t : String)
    (h : t ∉ qkeys m) : (List.lookup t m : Option (List String)) = none := by
  induction m with
  | nil => rfl
  | cons kv rest ih =>
    have h1 : t ≠ kv.1 := fun he => h (he ▸ List.mem_cons_self _ _)
    have hbeq : (t == kv.1) = false := by simp [h1]
    rcases kv with ⟨k0, w0⟩
    rw [List.lookup_cons]
    simp only [hbeq]
    exact ih (fun hm => h (List.mem_cons_of_mem _ hm))

theorem flatten_lookup_none (u : String → String) (secs : List JVal)
    (o : List String) (t : String)
    (h : ∀ b, (t, b) ∈ titlesShown [] (secs.flatMap questionsOf) → b = false) :
    (List.lookup t (flatten_questions u secs o) : Option (List String)) = none := by
  apply lookup_eq_none_of_not_key
  rw [flatten_questions, foldl_sections, flatten_fold_keys]
  rintro (hk | hk)
  · cases hk
  · exact absurd (h true hk) (by simp)

theorem dget_foldPrepend (v : String → String) :
    ∀ (ts : List String) (d : List (String × String)) (t : String),
      dget (ts.foldl (fun d k => (k, v k) :: d) d) t
        = if t ∈ ts then some (v t) else dget d t := by
  intro ts
  induction ts with
  | nil => simp
  | cons k rest ih =>
    intro d t
    rw [List.foldl_cons, ih]
    by_cases h1 : t ∈ rest
    · simp [h1, List.mem_cons]
    · by_cases h2 : t = k
      · subst h2
        simp [h1, dget, List.lookup_cons]
      · have hbeq : (t == k) = false := by simp [h2]
        simp [h1, h2, dget, List.lookup_cons, hbeq]

theorem pass2_foldl_length (loads : String → Option JVal)
    (unescape : String → String) (o : List String) (tc : Option String)
    (ft : Option (List String)) (jc : String) (mc ut : List String) :
    ∀ (rows : List Row) (out : List (List (String × String))),
      (rows.foldl (fun out r =>
        if should_keep_row r tc ft then
          out ++ [emit_row loads unescape o mc ut jc r]
        else out) out).length
        = out.length + (rows.filter (fun r => should_keep_row r tc ft)).length := by
  intro rows
  induction rows with
  | nil => simp
  | cons r rows ih =>
    intro out
    rw [List.foldl_cons]
    by_cases h : should_keep_row r tc ft
    · simp [h, ih, List.filter_cons]
      omega
    · simp [h, ih, List.filter_cons]

theorem subset_unionMerge (acc ts : List String) :
    ∀ t ∈ acc, t ∈ unionMerge acc ts := by
  induction ts generalizing acc with
  | nil => intro t ht; exact ht
  | cons x ts ih =>
    intro t ht
    rw [unionMerge, List.foldl_cons]
    by_cases hx : x ∈ acc
    · rw [if_pos hx]
      exact ih acc t ht
    · rw [if_neg hx]
      exact ih (acc ++ [x]) t (List.mem_append_left _ ht)

theorem mem_unionMerge_right (acc ts : List String) :
    ∀ t ∈ ts, t ∈ unionMerge acc ts := by
  induction ts generalizing acc with
  | nil => intro t ht; cases ht
  | cons x ts ih =>
    intro t ht
    rw [unionMerge, List.foldl_cons]
    rcases List.mem_cons.mp ht with rfl | ht
    · by_cases hx : t ∈ acc
      · rw [if_pos hx]
        exact subset_unionMerge acc ts t hx
      · rw [if_neg hx]
        exact subset_unionMerge (acc ++ [t]) ts t
          (List.mem_append_right _ (List.mem_singleton.mpr rfl))
    · by_cases hx : x ∈ acc
      · rw [if_pos hx]
        exact ih acc t ht
      · rw [if_neg hx]
        exact ih (acc ++ [x]) t ht

theorem unionMerge_stable (acc ts : List String)
    (h : ∀ t ∈ ts, t ∈ acc) : unionMerge acc ts = acc := by
  induction ts with
  | nil => rfl
  | cons x ts ih =>
    rw [unionMerge, List.foldl_cons, if_pos (h x (List.mem_cons_self _ _))]
    exact ih (fun t ht => h t (List.mem_cons_of_mem _ ht))

theorem subset_pass1Acc (loads : String → Option JVal) (tc : Option String)
    (ft : Option (List String)) (jc : String) :
    ∀ (rows : List Row) (acc : List String) (t : String), t ∈ acc →
      t ∈ pass1Acc loads tc ft jc acc rows := by
  intro rows
  induction rows with
  | nil => intro acc t ht; exact ht
  | cons r rows ih =>
    intro acc t ht
    rw [pass1Acc, List.foldl_cons]
    by_cases hk : should_keep_row r tc ft
    · rw [if_pos hk]
      cases hp : parse_json_sections loads (rowCell r jc) with
      | none => exact ih acc t ht
      | some secs =>
        cases secs with
        | nil => exact ih acc t ht
        | cons s ss => exact ih _ t (subset_unionMerge acc _ t ht)
    · rw [if_neg hk]
      exact ih acc t ht

theorem pass1Acc_covers (loads : String → Option JVal) (tc : Option String)
    (ft : Option (List String)) (jc : String) :
    ∀ (rows : List Row) (acc : List String) (r : Row), r ∈ rows →
      should_keep_row r tc ft = true →
      ∀ s ss, parse_json_sections loads (rowCell r jc) = some (s :: ss) →
      ∀ t ∈ collect_question_titles (s :: ss),
        t ∈ pass1Acc loads tc ft jc acc rows := by
  intro rows
  induction rows with
  | nil => intro acc r hr; cases hr
  | cons r0 rows ih =>
    intro acc r hr hk s ss hp t ht
    rcases List.mem_cons.mp hr with rfl | hr
    · rw [pass1Acc, List.foldl_cons, if_pos hk, hp]
      exact subset_pass1Acc loads tc ft jc rows _ t
        (mem_unionMerge_right acc _ t ht)
    · rw [pass1Acc, List.foldl_cons]
      by_cases hk0 : should_keep_row r0 tc ft
      · rw [if_pos hk0]
        cases hp0 : parse_json_sections loads (rowCell r0 jc) with
        | none => exact ih acc r hr hk s ss hp t ht
        | some secs =>
          cases secs with
          | nil => exact ih acc r hr hk s ss hp t ht
          | cons s0 ss0 => exact ih _ r hr hk s ss hp t ht
      · rw [if_neg hk0]
        exact ih acc r hr hk s ss hp t ht

theorem pass1Acc_stable (loads : String → Option JVal) (tc : Option String)
    (ft : Option (List String)) (jc : String) :
    ∀ (rows : List Row) (acc : List String),
      (∀ r ∈ rows, should_keep_row r tc ft = true →
        ∀ s ss, parse_json_sections loads (rowCell r jc) = some (s :: ss) →
        ∀ t ∈ collect_question_titles (s :: ss), t ∈ acc) →
      pass1Acc loads tc ft jc acc rows = acc := by
  intro rows
  induction rows with
  | nil => intro acc _; rfl
  | cons r rows ih =>
    intro acc hcov
    rw [pass1Acc, List.foldl_cons]
    by_cases hk : should_keep_row r tc ft
    · rw [if_pos hk]
      cases hp : parse_json_sections loads (rowCell r jc) with
      | none => exact ih acc (fun r2 hr2 => hcov r2 (List.mem_cons_of_mem _ hr2))
      | some secs =>
        cases secs with
        | nil => exact ih acc (fun r2 hr2 => hcov r2 (List.mem_cons_of_mem _ hr2))
        | cons s ss =>
          show pass1Acc loads tc ft jc
            (unionMerge acc (collect_question_titles (s :: ss))) rows = acc
          rw [unionMerge_stable acc _
            (hcov r (List.mem_cons_self _ _) hk s ss hp)]
          exact ih acc (fun r2 hr2 => hcov r2 (List.mem_cons_of_mem _ hr2))
    · rw [if_neg hk]
      exact ih acc (fun r2 hr2 => hcov r2 (List.mem_cons_of_mem _ hr2))

theorem titlesShown_inv : ∀ (qs : List JVal) (seen : List String),
    ((titlesShown seen qs).map Prod.fst).Nodup ∧
      ∀ x ∈ (titlesShown seen qs).map Prod.fst, x ∉ seen := by
  intro qs
  induction qs with
  | nil => intro seen; exact ⟨List.nodup_nil, by simp [titlesShown]⟩
  | cons q qs ih =>
    intro seen
    by_cases hst : normGet q "type" = "Statement"
    · simpa [titlesShown, hst] using ih seen
    · obtain ⟨ihn, ihs⟩ := ih (unique_title (normGet q "title") q seen :: seen)
      constructor
      · simp only [titlesShown, if_neg hst, List.map_cons]
        rw [List.nodup_cons]
        exact ⟨fun hmem => ihs _ hmem (List.mem_cons_self _ _), ihn⟩
      · intro x hx
        simp only [titlesShown, if_neg hst, List.map_cons, List.mem_cons] at hx
        rcases hx with rfl | hx
        · exact unique_title_not_mem _ _ _
        · exact fun hxs => ihs x hx (List.mem_cons_of_mem _ hxs)

theorem dget_foldPrepend_meta (r : Row) (mc : List String) (c : String) :
    dget (mc.foldl (fun d k => (k, rowGet r k) :: d) []) c
      = if c ∈ mc then some (rowGet r c) else none :=
  dget_foldPrepend (fun k => rowGet r k) mc [] c

theorem emit_row_exists_cells (loads : String → Option JVal)
    (unescape : String → String) (o : List String) (mc ut : List String)
    (jc : String) (r : Row) :
    ∃ v : String → String, emit_row loads unescape o mc ut jc r
      = ut.foldl (fun d t => (t, v t) :: d)
          (mc.foldl (fun d c => (c, rowGet r c) :: d) []) := by
  cases hp : parse_json_sections loads (rowCell r jc) with
  | none =>
    refine ⟨fun _ => "(N/A)", ?_⟩
    simp only [emit_row]
    rw [hp]
  | some secs =>
    cases secs with
    | nil =>
      refine ⟨fun _ => "(N/A)", ?_⟩
      simp only [emit_row]
      rw [hp]
    | cons s ss =>
      refine ⟨fun t => cellFor (flatten_questions unescape (s :: ss) o) t, ?_⟩
      simp only [emit_row]
      rw [hp]

/-- C1: the specification states that an absent or empty `form_titles`
option disables row filtering, every row being kept.  The code violates
this: `main` normalizes an absent (or non-list) `form_titles` to the empty
list — never `None` — and `should_keep_row` treats every non-`None` value
as an active filter, whose membership test is unsatisfiable on an empty
allow-list.  Hence with the claimed configuration every row is dropped,
whether or not a title column was detected. -/
theorem C1_empty_form_titles_drops_all_rows :
    main_form_titles none = [] ∧
    (∀ (r : Row) (tc : Option String),
      should_keep_row r tc (some (main_form_titles none)) = false) ∧
    should_keep_row [("Title", "Consent Form")] (some "Title")
      (some (main_form_titles none)) = false := by
  refine ⟨rfl, ?_, by decide⟩
  intro r tc
  cases tc with
  | none => rfl
  | some tc =>
    by_cases htc : tc = "" <;> simp [should_keep_row, main_form_titles, htc]

/-- C2: pass 2 keeps every row that passes the row filter, whatever the
payload: the number of emitted records equals the number of kept input
rows, and a kept row whose payload cell fails to parse is emitted with
every question column set to the `(N/A)` sentinel. -/
theorem C2_row_count_invariant :
    ∀ (loads : String → Option JVal) (unescape : String → String)
      (o : List String) (tc : Option String) (ft : Option (List String))
      (jc : String) (mc ut : List String) (rows : List Row),
      (pass2 loads unescape o tc ft jc mc ut rows).length
        = (rows.filter (fun r => should_keep_row r tc ft)).length ∧
      ∀ r : Row, should_keep_row r tc ft = true →
        parse_json_sections loads (rowCell r jc) = none →
        ∀ t ∈ ut, dget (emit_row loads unescape o mc ut jc r) t
          = some "(N/A)" := by
  intro loads unescape o tc ft jc mc ut rows
  constructor
  · have h := pass2_foldl_length loads unescape o tc ft jc mc ut rows []
    simpa [pass2] using h
  · intro r _ hp t ht
    have h2 := dget_foldPrepend (fun _ => "(N/A)") ut
      (mc.foldl (fun d c => (c, rowGet r c) :: d) []) t
    rw [if_pos ht] at h2
    simp only [emit_row]
    rw [hp]
    exact h2

/-- C3: for a kept row whose payload parses, every Union-Title-List cell
follows the sentinel rule — `(N/A)` when the title is not a key of the
row's answer map, `not signed` for an empty answer list under the literal
`Signature` title, `(NoResponse)` for any other empty answer list, and the
`"; "`-join of the answers otherwise — and every output cell (meta or
question) is a defined string from the sentinel/join/meta-value
vocabulary. -/
theorem C3_sentinel_cell_rule :
    ∀ (loads : String → Option JVal) (unescape : String → String)
      (o : List String) (tc : Option String) (ft : Option (List String))
      (jc : String) (mc ut : List String) (r : Row) (secs : List JVal),
      should_keep_row r tc ft = true →
      parse_json_sections loads (rowCell r jc) = some secs →
      (∀ t ∈ ut, dget (emit_row loads unescape o mc ut jc r) t
          = some (cellFor (flatten_questions unescape secs o) t)) ∧
      (∀ (qmap : List (String × List String)) (t : String),
        cellFor qmap t = "(N/A)" ∨ cellFor qmap t = "not signed" ∨
        cellFor qmap t = "(NoResponse)" ∨
        ∃ l : List String, l ≠ [] ∧ cellFor qmap t = joinSemi l) ∧
      (∀ c ∈ mc ++ ut, (dget (emit_row loads unescape o mc ut jc r) c).isSome) := by
  intro loads unescape o tc ft jc mc ut r secs _ hp
  refine ⟨?_, ?_, ?_⟩
  · intro t ht
    cases secs with
    | nil =>
      have h2 := dget_foldPrepend (fun _ => "(N/A)") ut
        (mc.foldl (fun d c => (c, rowGet r c) :: d) []) t
      rw [if_pos ht] at h2
      simp only [emit_row]
      rw [hp]
      exact h2
    | cons s ss =>
      have h2 := dget_foldPrepend
        (fun t => cellFor (flatten_questions unescape (s :: ss) o) t) ut
        (mc.foldl (fun d c => (c, rowGet r c) :: d) []) t
      rw [if_pos ht] at h2
      simp only [emit_row]
      rw [hp]
      exact h2
  · intro qmap t
    cases hl : (List.lookup t qmap : Option (List String)) with
    | none => exact Or.inl (by simp [cellFor, hl])
    | some answers =>
      cases answers with
      | nil =>
        by_cases ht : t = "Signature"
        · subst ht
          exact Or.inr (Or.inl (by simp [cellFor, hl]))
        · exact Or.inr (Or.inr (Or.inl (by simp [cellFor, hl, ht])))
      | cons a as =>
        exact Or.inr (Or.inr (Or.inr ⟨a :: as, by simp, by simp [cellFor, hl]⟩))
  · intro c hc
    obtain ⟨v, hv⟩ := emit_row_exists_cells loads unescape o mc ut jc r
    rw [hv, dget_foldPrepend]
    by_cases hcu : c ∈ ut
    · simp [hcu]
    · rcases List.mem_append.mp hc with hcm | hcm
      · rw [if_neg hcu, dget_foldPrepend_meta, if_pos hcm]
        rfl
      · exact absurd hcm hcu

/-- C4: `parse_json_sections` is total (the embedding is a function) and
returns absent for every non-text cell, for empty or whitespace-only
text, and for trimmed text not starting with `[` or a curly brace; when
the first structured parse fails it retries exactly once on the
quote-stripped text, returning absent when that also fails and otherwise
applying the usual shape dispatch. -/
theorem C4_parse_json_sections_behaviour :
    ∀ loads : String → Option JVal,
      parse_json_sections loads none = none ∧
      (∀ s : String, pyStrip s = "" →
        parse_json_sections loads (some s) = none) ∧
      (∀ s : String,
        ¬((pyStrip s).data.head? = some '[' ∨
          (pyStrip s).data.head? = some curlyOpen) →
        parse_json_sections loads (some s) = none) ∧
      (∀ s : String, pyStrip s ≠ "" →
        ((pyStrip s).data.head? = some '[' ∨
          (pyStrip s).data.head? = some curlyOpen) →
        loads (pyStrip s) = none →
        parse_json_sections loads (some s)
          = (match loads (pyStripQuotes (pyStrip s)) with
             | some obj => sectionsOfParsed obj
             | none => none)) := by
  intro loads
  refine ⟨rfl, ?_, ?_, ?_⟩
  · intro s h
    simp only [parse_json_sections]
    rw [if_pos h]
  · intro s h
    by_cases h0 : pyStrip s = ""
    · simp only [parse_json_sections]
      rw [if_pos h0]
    · simp only [parse_json_sections]
      rw [if_neg h0, if_pos h]
  · intro s h0 hb hl
    simp only [parse_json_sections]
    rw [if_neg h0, if_neg (not_not_intro hb), hl]

/-- C5: within one row's processing — one traversal with a fresh seen
set — no two non-Statement questions receive the same final column name:
the titles collected by `collect_question_titles` are pairwise distinct,
the final titles assigned during `flatten_questions` (tracked by
`titlesShown`) are pairwise distinct, and every `unique_title` call
returns a name not previously in the seen set (which the caller then
registers). -/
theorem C5_per_row_title_distinctness :
    (∀ sections : List JVal, (collect_question_titles sections).Nodup) ∧
    (∀ sections : List JVal,
      ((titlesShown [] (sections.flatMap questionsOf)).map Prod.fst).Nodup) ∧
    (∀ (base : String) (q : JVal) (seen : List String),
      unique_title base q seen ∉ seen) :=
  ⟨collect_nodup, fun secs => (titlesShown_inv (secs.flatMap questionsOf) []).1,
    unique_title_not_mem⟩

/-- C6: `unique_title` uses a fresh non-empty base title as-is; an empty
base title resolves from the candidate `"(untitled:<id>)"` (or
`"(untitled)"` without an id) and an already-seen non-empty base from the
base itself, in both cases appending `" #k"` for the lowest unused
`k ≥ 2` when the candidate is already seen; two questions titled
`"Comment"` in one row receive `"Comment"` and `"Comment #2"`. -/
theorem C6_unique_title_assignment :
    (∀ (base : String) (q : JVal) (seen : List String),
      base ≠ "" → base ∉ seen → unique_title base q seen = base) ∧
    (∀ (q : JVal) (seen : List String),
      ResolvesLowestSuffix (untitledCandidate q) seen (unique_title "" q seen)) ∧
    (∀ (base : String) (q : JVal) (seen : List String),
      base ≠ "" → base ∈ seen →
      ResolvesLowestSuffix base seen (unique_title base q seen)) ∧
    collect_question_titles
      [JVal.obj [("questions", JVal.arr
        [JVal.obj [("type", JVal.str "Short answer"),
          ("title", JVal.str "Comment")],
         JVal.obj [("type", JVal.str "Short answer"),
          ("title", JVal.str "Comment")]])]]
      = ["Comment", "Comment #2"] := by
  refine ⟨fun base q seen h1 h2 => unique_title_fresh q seen h1 h2, ?_, ?_, ?_⟩
  · intro q seen
    rw [unique_title_empty]
    exact resolves_core _ _
  · intro base q seen h1 h2
    rw [unique_title_collide q seen h1 h2]
    exact resolves_core _ _
  · decide

/-- C6 witness: a second `"Comment"` against a seen set already holding
`"Comment"` resolves by the lowest-unused-suffix rule. -/
theorem C6_witness :
    ResolvesLowestSuffix "Comment" ["Comment"]
      (unique_title "Comment" (JVal.obj []) ["Comment"]) :=
  C6_unique_title_assignment.2.2.1 "Comment" (JVal.obj []) ["Comment"]
    (by decide) (by decide)

/-- C7: pass-1 title discovery never inspects `shown` — rewriting every
question's `shown` field to an arbitrary value leaves
`collect_question_titles` unchanged — while `flatten_questions` skips
answer extraction for a question whose `shown` is exactly boolean false,
still registering its final title in the seen set. -/
theorem C7_shown_only_affects_answers :
    (∀ (v : JVal) (secs : List JVal),
      collect_question_titles (secs.map (secSetShown v))
        = collect_question_titles secs) ∧
    (∀ (unescape : String → String) (o : List String)
        (st : List (String × List String) × List String) (q : JVal),
      normGet q "type" ≠ "Statement" → isFalseLit (jGet q "shown") = true →
      flattenStep unescape o st q
        = (st.1, unique_title (normGet q "title") q st.2 :: st.2)) := by
  constructor
  · exact collect_secSetShown
  · intro u o st q hst hsh
    have h1 := flattenStep_fst_hidden u o st q hst hsh
    have h2 := flattenStep_snd u o st q hst
    calc flattenStep u o st q
        = ((flattenStep u o st q).1, (flattenStep u o st q).2) := rfl
      _ = (st.1, unique_title (normGet q "title") q st.2 :: st.2) := by
          rw [h1, h2]

/-- C7 witness: a hidden short-answer question contributes no answer map
entry but its title is registered. -/
theorem C7_witness :
    flattenStep id [] ([], [])
      (JVal.obj [("type", JVal.str "Short answer"), ("title", JVal.str "T"),
        ("shown", JVal.bool false)]) = ([], ["T"]) := by
  have h := C7_shown_only_affects_answers.2 id [] ([], [])
    (JVal.obj [("type", JVal.str "Short answer"), ("title", JVal.str "T"),
      ("shown", JVal.bool false)]) (by decide) (by rfl)
  rw [h]
  decide

/-- C8: for a `Date of birth` question, when `birthYear`, `birthMonth`
and `birthDay` are all Python integers the answer is `DD/MM/YYYY` with
the 0-based stored month incremented; otherwise the cleaned `answerText`
is used, absent when empty; the example question of the specification
yields `15/01/1990`. -/
theorem C8_date_of_birth_rule :
    (∀ (unescape : String → String) (q : JVal) (o : List String),
      normGet q "type" = "Date of birth" →
      ((jIsInt (jGet q "birthYear") && jIsInt (jGet q "birthMonth") &&
          jIsInt (jGet q "birthDay")) = true →
        extract_answer unescape q o
          = some (fmtDOB (jIntVal (jGet q "birthYear"))
              (jIntVal (jGet q "birthMonth")) (jIntVal (jGet q "birthDay")))) ∧
      ((jIsInt (jGet q "birthYear") && jIsInt (jGet q "birthMonth") &&
          jIsInt (jGet q "birthDay")) = false →
        extract_answer unescape q o
          = (if cleanGet unescape q "answerText" ≠ ""
             then some (cleanGet unescape q "answerText") else none))) ∧
    extract_answer id (JVal.obj [("type", JVal.str "Date of birth"),
      ("birthYear", JVal.num 1990), ("birthMonth", JVal.num 0),
      ("birthDay", JVal.num 15)]) [] = some "15/01/1990" := by
  constructor
  · intro u q o htype
    constructor
    · intro h
      simp [extract_answer, htype, h]
    · intro h
      simp [extract_answer, htype, h]
  · decide

/-- C8 witness: the rule applied to the concrete specification example. -/
theorem C8_witness :
    extract_answer id (JVal.obj [("type", JVal.str "Date of birth"),
      ("birthYear", JVal.num 1990), ("birthMonth", JVal.num 0),
      ("birthDay", JVal.num 15)]) []
      = some (fmtDOB 1990 0 15) :=
  (C8_date_of_birth_rule.1 id (JVal.obj [("type", JVal.str "Date of birth"),
      ("birthYear", JVal.num 1990), ("birthMonth", JVal.num 0),
      ("birthDay", JVal.num 15)]) [] (by decide)).1 (by decide)

/-- C9: pass-1 column discovery is deterministic — the embedding is a
pure function of the input rows — and idempotent: running the discovery
loop again, seeded with the Union Title List it produced, returns that
same list in the same order. -/
theorem C9_pass1_idempotent :
    ∀ (loads : String → Option JVal) (tc : Option String)
      (ft : Option (List String)) (jc : String) (rows : List Row),
      pass1 loads tc ft jc rows = pass1 loads tc ft jc rows ∧
      pass1Acc loads tc ft jc (pass1 loads tc ft jc rows) rows
        = pass1 loads tc ft jc rows := by
  intro loads tc ft jc rows
  refine ⟨rfl, ?_⟩
  apply pass1Acc_stable
  intro r hr hk s ss hp t ht
  exact pass1Acc_covers loads tc ft jc rows [] r hr hk s ss hp t ht

/-- C10: a question whose `shown` is exactly boolean false never creates
an answer-map entry for its final title, a column whose every occurrence
in the row is hidden is absent from the row's answer map, and an absent
title is emitted as the `(N/A)` sentinel (not `(NoResponse)`). -/
theorem C10_hidden_only_columns_are_na :
    (∀ (u : String → String) (o : List String)
        (st : List (String × List String) × List String) (q : JVal),
      normGet q "type" ≠ "Statement" → isFalseLit (jGet q "shown") = true →
      (flattenStep u o st q).1 = st.1) ∧
    (∀ (u : String → String) (secs : List JVal) (o : List String) (t : String),
      (∀ b, (t, b) ∈ titlesShown [] (secs.flatMap questionsOf) → b = false) →
      (List.lookup t (flatten_questions u secs o) : Option (List String))
        = none) ∧
    (∀ (qmap : List (String × List String)) (t : String),
      (List.lookup t qmap : Option (List String)) = none →
      cellFor qmap t = "(N/A)") := by
  refine ⟨flattenStep_fst_hidden, flatten_lookup_none, ?_⟩
  intro qmap t h
  simp [cellFor, h]

/-- C10 witness: a row whose only `"H"`-titled question is hidden has no
`"H"` entry in its answer map. -/
theorem C10_witness :
    (List.lookup "H" (flatten_questions id
      [JVal.obj [("questions", JVal.arr [JVal.obj
        [("type", JVal.str "Short answer"), ("title", JVal.str "H"),
          ("shown", JVal.bool false)]])]] []) : Option (List String))
      = none :=
  C10_hidden_only_columns_are_na.2.1 id
    [JVal.obj [("questions", JVal.arr [JVal.obj
      [("type", JVal.str "Short answer"), ("title", JVal.str "H"),
        ("shown", JVal.bool false)]])]] [] "H" (by decide)

/-- C2 witness: a kept row with an unparseable payload cell is emitted
with the question column set to `(N/A)`. -/
theorem C2_witness :
    dget (emit_row (fun _ => none) id [] [] ["X"] "Json"
      [("Json", "oops")]) "X" = some "(N/A)" :=
  (C2_row_count_invariant (fun _ => none) id [] none none "Json" [] ["X"]
    [[("Json", "oops")]]).2 [("Json", "oops")] rfl rfl "X" (by decide)

/-- C3 witness: a kept row with a parseable payload receives the
rule-determined cell for the union title. -/
theorem C3_witness :
    dget (emit_row (fun _ => some (JVal.arr [])) id [] [] ["X"] "Json"
      [("Json", "[]")]) "X"
      = some (cellFor (flatten_questions id [] []) "X") :=
  (C3_sentinel_cell_rule (fun _ => some (JVal.arr [])) id [] none none "Json"
    [] ["X"] [("Json", "[]")] [] rfl rfl).1 "X" (by decide)

/-- C4 witness: a bracket-opening text that fails both structured parses
is reported absent. -/
theorem C4_witness :
    parse_json_sections (fun _ => none) (some "[oops") = none :=
  (C4_parse_json_sections_behaviour (fun _ => none)).2.2.2 "[oops"
    (by decide) (by decide) rfl
